import Mathlib

/-!
Verification of the Game-of-Life simulation core of `src/main.rs`.

The embedding identifies a Bevy `Entity` of a grid square with its grid
coordinate `(y, x)`: `setup` spawns exactly one entity per coordinate of
`[0, NUM_OF_ROWS) × [0, NUM_OF_COLS)` and `square_map` is a bijection
between in-grid coordinates and those entities, so the `Vec<Entity>` output
lists of `game_logic` are modelled as lists of coordinates.  The
`number_of_neighbors` accumulators of the grid store are modelled as a
total function `Coord → Nat` (coordinates outside the store simply keep
their value, mirroring the failing `get_mut` lookups).
-/

namespace GoL

/-- A grid coordinate `(y, x)`, ordered as the `(usize, usize)` keys of
`potentially_changed_squares` and the `map[y][x]` indexing in `main.rs`.
`Int` models the `i32` fields of `Square`. -/
abbrev Coord := Int × Int

def NUM_OF_COLS : Int := 100

def NUM_OF_ROWS : Int := 100

/-- The bounds test `x < 0 || y < 0 || x >= NUM_OF_COLS || y >= NUM_OF_ROWS`
that guards neighbor increments inside the first loop of `game_logic`. -/
def outOfBounds (y x : Int) : Bool :=
  x < 0 || y < 0 || x ≥ NUM_OF_COLS || y ≥ NUM_OF_ROWS

/-- `square_map.map.get(y).map(|row| row.get(x)).flatten()` succeeds exactly
for the coordinates spawned by `setup`: `0 ≤ y < NUM_OF_ROWS` and
`0 ≤ x < NUM_OF_COLS`.  (A negative `i32` cast `as usize` becomes a huge
index, which also fails the lookup, so `Int` coordinates model the cast
faithfully at the level of lookup success.) -/
def inGrid (c : Coord) : Bool :=
  0 ≤ c.1 && c.1 < NUM_OF_ROWS && 0 ≤ c.2 && c.2 < NUM_OF_COLS

/-- The offsets `(dx, dy)` traversed by `for dx in -1..=1 { for dy in -1..=1 }`
with the `dx == 0 && dy == 0` case skipped by `continue`. -/
def neighborOffsets : List (Int × Int) :=
  [(-1, -1), (-1, 0), (-1, 1), (0, -1), (0, 1), (1, -1), (1, 0), (1, 1)]

/-- `HashSet::insert` on a set represented as a duplicate-free list. -/
def hsInsert (l : List Coord) (c : Coord) : List Coord :=
  if c ∈ l then l else l ++ [c]

/-- `neighbor.number_of_neighbors += 1` on the grid store viewed as a map
from coordinates to counts. -/
def bump (counts : Coord → Nat) (c : Coord) : Coord → Nat :=
  fun c2 => if c2 = c then counts c + 1 else counts c2

/-- The body of the inner offset loops of `game_logic` for one alive
`square` and one offset `(dx, dy)`: compute `y = square.y + dy`,
`x = square.x + dx`, drop the offset if out of bounds, otherwise insert
`(y, x)` into the candidate set and increment its neighbor count (the
`get_mut` lookup always succeeds after the bounds check). -/
def visitOffset (sq : Coord) (st : (Coord → Nat) × List Coord) (d : Int × Int) :
    (Coord → Nat) × List Coord :=
  let y := sq.1 + d.2
  let x := sq.2 + d.1
  if outOfBounds y x then st
  else (bump st.1 (y, x), hsInsert st.2 (y, x))

/-- One iteration of `for square in q_alive_squares.iter()`: insert the live
cell itself into `potentially_changed_squares`, then visit its eight
neighbor offsets. -/
def visitAlive (st : (Coord → Nat) × List Coord) (sq : Coord) :
    (Coord → Nat) × List Coord :=
  neighborOffsets.foldl (visitOffset sq) (st.1, hsInsert st.2 sq)

/-- The first loop of `game_logic`: starting from the current counts and an
empty candidate set, accumulate `number_of_neighbors` and build
`potentially_changed_squares` over the alive query. -/
def neighborPass (alive : List Coord) (counts0 : Coord → Nat) :
    (Coord → Nat) × List Coord :=
  alive.foldl visitAlive (counts0, [])

/-- The mutable state of the second half of `game_logic`: the two
`RenderInput` lists (cleared on entry to `game_logic`) and the grid store's
counts. -/
structure GenResult where
  died : List Coord
  born : List Coord
  counts : Coord → Nat

/-- The body of `for (y, x) in potentially_changed_squares` in `game_logic`:
if the coordinate resolves in the grid store, read
`was_previously_alive`, run the `if`/`else if` classification, then reset
`number_of_neighbors` to 0. -/
def classify (alive : List Coord) (r : GenResult) (c : Coord) : GenResult :=
  if inGrid c then
    let wasPreviouslyAlive := c ∈ alive
    let n := r.counts c
    let r1 :=
      if wasPreviouslyAlive ∧ n ≠ 2 ∧ n ≠ 3 then
        { r with died := r.died ++ [c] }
      else if n = 3 then
        { r with born := r.born ++ [c] }
      else r
    { r1 with counts := fun c2 => if c2 = c then 0 else r1.counts c2 }
  else r

/-- `game_logic` (`src/main.rs`): the output lists start cleared
(`render_input.entities_born.clear()` and `entities_that_died.clear()`),
the neighbor-counting pass runs over the alive query, and every potentially
changed square is classified. -/
def game_logic (alive : List Coord) (counts0 : Coord → Nat) : GenResult :=
  let p := neighborPass alive counts0
  p.2.foldl (classify alive) ⟨[], [], p.1⟩

/-- `a` is one of the eight neighbors of `c`: the offset taking `a` to `c`
is among `neighborOffsets`. -/
def adjacent (a c : Coord) : Bool :=
  decide ((c.2 - a.2, c.1 - a.1) ∈ neighborOffsets)

/-- The exact condition under which the second loop of `game_logic` pushes
a candidate onto `entities_that_died`, phrased against the counts `n`
produced by the first loop. -/
def diedCond (alive : List Coord) (n : Coord → Nat) (c : Coord) : Bool :=
  inGrid c && decide (c ∈ alive) && decide (n c ≠ 2) && decide (n c ≠ 3)

/-- The exact condition under which the second loop of `game_logic` pushes
a candidate onto `entities_born`. -/
def bornCond (alive : List Coord) (n : Coord → Nat) (c : Coord) : Bool :=
  inGrid c && !(decide (c ∈ alive) && decide (n c ≠ 2) && decide (n c ≠ 3)) &&
    decide (n c = 3)

/-! ### The scheduler and the render/apply step -/

/-- The `LogicState` resource of `main.rs`. -/
inductive LogicState where
  | CalculationNeeded
  | CalculatingCurrently
  | Calculated
deriving DecidableEq

/-- The one-shot systems `game_loop` can dispatch through
`commands.run_system`. -/
inductive SysAction where
  | runGameLogic
  | runRender
deriving DecidableEq

/-- `game_loop` (`src/main.rs`): one scheduling pass over the `LogicState`
resource.  `timerJustFinished` is the value of
`game_tick_timer.0.tick(time.delta()).just_finished()`.  The result is the
updated state and the list of one-shot systems dispatched during the pass. -/
def game_loop (s : LogicState) (timerJustFinished : Bool) :
    LogicState × List SysAction :=
  match s with
  | LogicState.CalculationNeeded =>
      (LogicState.CalculatingCurrently, [SysAction.runGameLogic])
  | LogicState.CalculatingCurrently => (LogicState.CalculatingCurrently, [])
  | LogicState.Calculated =>
      if timerJustFinished then (LogicState.Calculated, [SysAction.runRender])
      else (LogicState.Calculated, [])

/-- Sprite colors, as far as the simulation core touches them. -/
inductive ColorW where
  | white
  | black
deriving DecidableEq

/-- The ECS state seen by the simulation core: the set of entities carrying
the `Alive` component (as their coordinates), the sprite colors, the grid
store's neighbor counts, the `RenderInput` resource and the `LogicState`
resource. -/
structure World where
  alive : List Coord
  colors : Coord → ColorW
  counts : Coord → Nat
  renderDied : List Coord
  renderBorn : List Coord
  logicState : LogicState

/-- Running the `game_logic` system on the world: it reads the alive query
and the counts, rebuilds the two `RenderInput` lists from scratch (they are
cleared on entry), writes back the counts, and sets
`LogicState::Calculated`.  It has no access that could change `Alive`
components or sprites. -/
def game_logic_sys (w : World) : World :=
  let r := game_logic w.alive w.counts
  { w with renderDied := r.died, renderBorn := r.born, counts := r.counts,
           logicState := LogicState.Calculated }

/-- The body of `for dead_square in render_input.entities_that_died`:
paint the square white and remove its `Alive` component. -/
def applyDead (w : World) (c : Coord) : World :=
  { w with colors := fun c2 => if c2 = c then ColorW.white else w.colors c2,
           alive := w.alive.filter (fun a => decide (a ≠ c)) }

/-- The body of `for square_born in render_input.entities_born`: paint the
square black and insert an `Alive` component (a no-op when present). -/
def applyBorn (w : World) (c : Coord) : World :=
  { w with colors := fun c2 => if c2 = c then ColorW.black else w.colors c2,
           alive := if c ∈ w.alive then w.alive else w.alive ++ [c] }

/-- `handle_rendering` (`src/main.rs`): apply the `died` list, then the
`born` list, then set `LogicState::CalculationNeeded`.  The `RenderInput`
lists themselves are not touched. -/
def handle_rendering (w : World) : World :=
  let w1 := w.renderDied.foldl applyDead w
  let w2 := w.renderBorn.foldl applyBorn w1
  { w2 with logicState := LogicState.CalculationNeeded }

/-- A concrete world state right after a generation was computed: one alive
square, queued in `entities_that_died`, waiting for the render step. -/
def demoWorld : World :=
  { alive := [((0, 0) : Coord)], colors := fun _ => ColorW.black,
    counts := fun _ => 0, renderDied := [((0, 0) : Coord)], renderBorn := [],
    logicState := LogicState.Calculated }

/-- The blinker pattern: a horizontal line of three alive squares in row 5,
columns 4, 5 and 6 (far from every grid edge). -/
def blinker : List Coord := [(5, 4), (5, 5), (5, 6)]

/-- The world holding the blinker, with zeroed counts and empty
`RenderInput` lists, ready for a generation computation. -/
def blinkerW : World :=
  { alive := blinker, colors := fun _ => ColorW.white,
    counts := fun _ => 0, renderDied := [], renderBorn := [],
    logicState := LogicState.CalculationNeeded }


/-! ### Basic facts about the helper operations -/

lemma mem_hsInsert {l : List Coord} {c x : Coord} :
    x ∈ hsInsert l c ↔ x ∈ l ∨ x = c := by
  unfold hsInsert
  by_cases h : c ∈ l
  · rw [if_pos h]
    constructor
    · exact Or.inl
    · rintro (hx | rfl)
      · exact hx
      · exact h
  · rw [if_neg h]
    simp [List.mem_append]

lemma nodup_hsInsert {l : List Coord} (h : l.Nodup) (c : Coord) :
    (hsInsert l c).Nodup := by
  unfold hsInsert
  by_cases hc : c ∈ l
  · rw [if_pos hc]; exact h
  · rw [if_neg hc]
    simp [List.nodup_append, h, hc]

lemma outOfBounds_eq (y x : Int) : outOfBounds y x = !inGrid (y, x) := by
  rw [Bool.eq_iff_iff]
  simp only [outOfBounds, inGrid, Bool.or_eq_true, Bool.not_eq_true',
    Bool.and_eq_true, decide_eq_true_eq, Bool.and_eq_false_iff,
    decide_eq_false_iff_not]
  omega

/-- A predicate satisfied by at most the single element `d0` (and there only
when `b` holds) is counted `1` or `0` on a duplicate-free list. -/
lemma countP_unique {α : Type} [DecidableEq α] (l : List α) (hl : l.Nodup)
    (p : α → Bool) (d0 : α) (b : Bool) (hp : ∀ d, p d = (decide (d = d0) && b)) :
    l.countP p = if d0 ∈ l ∧ b = true then 1 else 0 := by
  induction l with
  | nil => simp
  | cons a l ih =>
    rw [List.nodup_cons] at hl
    rw [List.countP_cons, ih hl.2]
    by_cases ha : a = d0
    · subst ha
      rw [hp a]
      cases b <;> simp [hl.1]
    · have hpa : p a = false := by
        rw [hp a]; simp [ha]
      have hda : ¬(d0 = a) := fun he => ha he.symm
      cases b <;> simp [hpa, hda, List.mem_cons]

/-! ### The neighbor-counting pass -/

lemma visitOffset_fst (sq : Coord) (st : (Coord → Nat) × List Coord)
    (d : Int × Int) (c : Coord) :
    (visitOffset sq st d).1 c =
      st.1 c + (if (sq.1 + d.2, sq.2 + d.1) = c ∧
          outOfBounds (sq.1 + d.2) (sq.2 + d.1) = false then 1 else 0) := by
  simp only [visitOffset, bump]
  by_cases hb : outOfBounds (sq.1 + d.2) (sq.2 + d.1)
  · simp [hb]
  · rw [Bool.not_eq_true] at hb
    by_cases hc : (sq.1 + d.2, sq.2 + d.1) = c
    · subst hc
      simp [hb, bump]
    · simp [hb, hc, Ne.symm hc, bump]

lemma visitOffset_snd (sq : Coord) (st : (Coord → Nat) × List Coord)
    (d : Int × Int) :
    (visitOffset sq st d).2 =
      if outOfBounds (sq.1 + d.2) (sq.2 + d.1) = false
      then hsInsert st.2 (sq.1 + d.2, sq.2 + d.1) else st.2 := by
  simp only [visitOffset]
  by_cases hb : outOfBounds (sq.1 + d.2) (sq.2 + d.1) <;> simp [hb]

lemma foldl_visitOffset_counts (sq : Coord) (ds : List (Int × Int)) :
    ∀ (st : (Coord → Nat) × List Coord) (c : Coord),
    (ds.foldl (visitOffset sq) st).1 c =
      st.1 c + ds.countP (fun d =>
        decide ((sq.1 + d.2, sq.2 + d.1) = c ∧
          outOfBounds (sq.1 + d.2) (sq.2 + d.1) = false)) := by
  induction ds with
  | nil => intro st c; simp
  | cons d ds ih =>
    intro st c
    rw [List.foldl_cons, List.countP_cons, ih, visitOffset_fst]
    simp only [decide_eq_true_eq]
    by_cases h : ((sq.1 + d.2, sq.2 + d.1) = c ∧
        outOfBounds (sq.1 + d.2) (sq.2 + d.1) = false)
    · simp only [if_pos h]
      omega
    · simp only [if_neg h]
      omega

lemma foldl_visitOffset_cands (sq : Coord) (ds : List (Int × Int)) :
    ∀ (st : (Coord → Nat) × List Coord) (x : Coord),
    (x ∈ (ds.foldl (visitOffset sq) st).2 ↔
      x ∈ st.2 ∨ ∃ d ∈ ds, (sq.1 + d.2, sq.2 + d.1) = x ∧
        outOfBounds (sq.1 + d.2) (sq.2 + d.1) = false) := by
  induction ds with
  | nil => intro st x; simp
  | cons d ds ih =>
    intro st x
    rw [List.foldl_cons, ih, visitOffset_snd]
    by_cases hb : outOfBounds (sq.1 + d.2) (sq.2 + d.1) = false
    · rw [if_pos hb]
      simp only [mem_hsInsert, List.mem_cons]
      constructor
      · rintro ((hx | rfl) | ⟨e, he, ht⟩)
        · exact Or.inl hx
        · exact Or.inr ⟨d, Or.inl rfl, rfl, hb⟩
        · exact Or.inr ⟨e, Or.inr he, ht⟩
      · rintro (hx | ⟨e, (rfl | he), ht⟩)
        · exact Or.inl (Or.inl hx)
        · exact Or.inl (Or.inr ht.1.symm)
        · exact Or.inr ⟨e, he, ht⟩
    · rw [if_neg hb]
      simp only [List.mem_cons]
      constructor
      · rintro (hx | ⟨e, he, ht⟩)
        · exact Or.inl hx
        · exact Or.inr ⟨e, Or.inr he, ht⟩
      · rintro (hx | ⟨e, (rfl | he), ht⟩)
        · exact Or.inl hx
        · exact absurd ht.2 hb
        · exact Or.inr ⟨e, he, ht⟩

lemma foldl_visitOffset_nodup (sq : Coord) (ds : List (Int × Int)) :
    ∀ (st : (Coord → Nat) × List Coord), st.2.Nodup →
    ((ds.foldl (visitOffset sq) st).2).Nodup := by
  induction ds with
  | nil => intro st h; exact h
  | cons d ds ih =>
    intro st h
    rw [List.foldl_cons]
    apply ih
    rw [visitOffset_snd]
    by_cases hb : outOfBounds (sq.1 + d.2) (sq.2 + d.1) = false
    · rw [if_pos hb]; exact nodup_hsInsert h _
    · rw [if_neg hb]; exact h

lemma neighborOffsets_nodup : neighborOffsets.Nodup := by decide

/-- Among the eight neighbor offsets, at most one maps `sq` onto `c`, so the
inner loops increment `c` exactly once per adjacent live square (and only
when `c` is in the grid). -/
lemma countP_offsets (sq c : Coord) :
    neighborOffsets.countP (fun d =>
      decide ((sq.1 + d.2, sq.2 + d.1) = c ∧
        outOfBounds (sq.1 + d.2) (sq.2 + d.1) = false)) =
      if adjacent sq c = true ∧ inGrid c = true then 1 else 0 := by
  have hp : ∀ d : Int × Int,
      decide ((sq.1 + d.2, sq.2 + d.1) = c ∧
        outOfBounds (sq.1 + d.2) (sq.2 + d.1) = false) =
      (decide (d = (c.2 - sq.2, c.1 - sq.1)) && inGrid c) := by
    intro d
    rw [Bool.eq_iff_iff]
    obtain ⟨c1, c2⟩ := c
    obtain ⟨d1, d2⟩ := d
    simp only [decide_eq_true_eq, Bool.and_eq_true, Prod.mk.injEq,
      outOfBounds, inGrid, Bool.or_eq_true, Bool.or_eq_false_iff,
      decide_eq_false_iff_not, not_le, not_lt]
    omega
  rw [countP_unique neighborOffsets neighborOffsets_nodup _
    ((c.2 - sq.2, c.1 - sq.1)) (inGrid c) hp]
  have hadj : adjacent sq c = true ↔ (c.2 - sq.2, c.1 - sq.1) ∈ neighborOffsets := by
    simp [adjacent]
  by_cases hm : (c.2 - sq.2, c.1 - sq.1) ∈ neighborOffsets <;>
    simp [hm, hadj]

/-- Eliminating the offset quantifier: some in-bounds offset of `a` lands on
`x` exactly when `a` is adjacent to `x` and `x` is in the grid. -/
lemma exists_offset_iff (a x : Coord) :
    (∃ d ∈ neighborOffsets, (a.1 + d.2, a.2 + d.1) = x ∧
        outOfBounds (a.1 + d.2) (a.2 + d.1) = false) ↔
      (adjacent a x = true ∧ inGrid x = true) := by
  obtain ⟨x1, x2⟩ := x
  constructor
  · rintro ⟨⟨d1, d2⟩, hd, ht, hb⟩
    simp only [Prod.mk.injEq] at ht
    have hd0 : ((d1, d2) : Int × Int) = (x2 - a.2, x1 - a.1) := by
      simp only [Prod.mk.injEq]
      omega
    constructor
    · rw [adjacent, decide_eq_true_eq]
      simpa using hd0 ▸ hd
    · simp only [outOfBounds, inGrid, Bool.or_eq_false_iff,
        decide_eq_false_iff_not, not_le, not_lt, Bool.and_eq_true,
        decide_eq_true_eq] at hb ⊢
      omega
  · rintro ⟨hadj, hg⟩
    rw [adjacent, decide_eq_true_eq] at hadj
    simp only [inGrid, Bool.and_eq_true, decide_eq_true_eq] at hg
    refine ⟨(x2 - a.2, x1 - a.1), ?_, ?_, ?_⟩
    · simpa using hadj
    · simp only [Prod.mk.injEq]
      constructor <;> simp
    · simp only [outOfBounds, Bool.or_eq_false_iff,
        decide_eq_false_iff_not, not_le, not_lt]
      simp at hg ⊢
      omega

/-- The counts component of the whole first loop: each cell's accumulator
grows by the number of alive squares adjacent to it, and only in-grid cells
are ever incremented. -/
lemma foldl_visitAlive_counts (l : List Coord) :
    ∀ (st : (Coord → Nat) × List Coord) (c : Coord),
    (l.foldl visitAlive st).1 c =
      st.1 c + l.countP (fun a => adjacent a c && inGrid c) := by
  induction l with
  | nil => intro st c; simp
  | cons a l ih =>
    intro st c
    rw [List.foldl_cons, List.countP_cons, ih]
    show (neighborOffsets.foldl (visitOffset a) (st.1, hsInsert st.2 a)).1 c + _ = _
    rw [foldl_visitOffset_counts, countP_offsets]
    by_cases h : (adjacent a c = true ∧ inGrid c = true)
    · simp only [if_pos h, Bool.and_eq_true, h]
      simp
      omega
    · rw [if_neg h]
      have : ¬((adjacent a c && inGrid c) = true) := by
        rw [Bool.and_eq_true]; exact h
      simp only [if_neg this]
      omega

lemma neighborPass_counts (alive : List Coord) (counts0 : Coord → Nat)
    (c : Coord) :
    (neighborPass alive counts0).1 c =
      counts0 c + alive.countP (fun a => adjacent a c && inGrid c) :=
  foldl_visitAlive_counts alive (counts0, []) c

/-- The candidate component of the whole first loop:
`potentially_changed_squares` collects the alive squares and their in-grid
neighbors. -/
lemma foldl_visitAlive_cands (l : List Coord) :
    ∀ (st : (Coord → Nat) × List Coord) (x : Coord),
    (x ∈ (l.foldl visitAlive st).2 ↔
      x ∈ st.2 ∨ x ∈ l ∨
        ∃ a ∈ l, adjacent a x = true ∧ inGrid x = true) := by
  induction l with
  | nil => intro st x; simp
  | cons a l ih =>
    intro st x
    rw [List.foldl_cons, ih]
    show (x ∈ (visitAlive st a).2 ∨ _ ∨ _) ↔ _
    rw [visitAlive, foldl_visitOffset_cands]
    simp only [mem_hsInsert, List.mem_cons]
    rw [exists_offset_iff]
    constructor
    · rintro (((hx | rfl) | had) | hl | ⟨e, he, hadj⟩)
      · exact Or.inl hx
      · exact Or.inr (Or.inl (Or.inl rfl))
      · exact Or.inr (Or.inr ⟨a, Or.inl rfl, had⟩)
      · exact Or.inr (Or.inl (Or.inr hl))
      · exact Or.inr (Or.inr ⟨e, Or.inr he, hadj⟩)
    · rintro (hx | (rfl | hl) | ⟨e, (rfl | he), hadj⟩)
      · exact Or.inl (Or.inl (Or.inl hx))
      · exact Or.inl (Or.inl (Or.inr rfl))
      · exact Or.inr (Or.inl hl)
      · exact Or.inl (Or.inr hadj)
      · exact Or.inr (Or.inr ⟨e, he, hadj⟩)

lemma mem_cands (alive : List Coord) (counts0 : Coord → Nat) (x : Coord) :
    x ∈ (neighborPass alive counts0).2 ↔
      x ∈ alive ∨ ∃ a ∈ alive, adjacent a x = true ∧ inGrid x = true := by
  rw [neighborPass, foldl_visitAlive_cands]
  simp

lemma cands_nodup (alive : List Coord) (counts0 : Coord → Nat) :
    (neighborPass alive counts0).2.Nodup := by
  rw [neighborPass]
  have h : ∀ (l : List Coord) (st : (Coord → Nat) × List Coord),
      st.2.Nodup → ((l.foldl visitAlive st).2).Nodup := by
    intro l
    induction l with
    | nil => intro st h; exact h
    | cons a l ih =>
      intro st h
      rw [List.foldl_cons]
      apply ih
      exact foldl_visitOffset_nodup a neighborOffsets _ (nodup_hsInsert h a)
  exact h alive (counts0, []) List.nodup_nil

/-! ### The classification pass -/

/-- One `classify` step, described against a reference counts function `n`
that agrees with the running counts at the visited coordinate. -/
lemma classify_spec (alive : List Coord) (n : Coord → Nat) (r : GenResult)
    (c : Coord) (hcn : r.counts c = n c) :
    ((classify alive r c).died =
        r.died ++ (if diedCond alive n c = true then [c] else [])
    ∧ (classify alive r c).born =
        r.born ++ (if bornCond alive n c = true then [c] else [])
    ∧ ∀ c2, (classify alive r c).counts c2 =
        if c2 = c ∧ inGrid c = true then 0 else r.counts c2) := by
  unfold classify diedCond bornCond
  dsimp only
  by_cases hg : inGrid c
  · rw [if_pos hg, hcn]
    by_cases hd : (c ∈ alive ∧ n c ≠ 2 ∧ n c ≠ 3)
    · have hdc : (inGrid c && decide (c ∈ alive) && decide (n c ≠ 2) &&
          decide (n c ≠ 3)) = true := by
        simp [hg, hd.1, hd.2.1, hd.2.2]
      have hbc : ¬((inGrid c && !(decide (c ∈ alive) && decide (n c ≠ 2) &&
          decide (n c ≠ 3)) && decide (n c = 3)) = true) := by
        simp [hd.1, hd.2.1, hd.2.2]
      rw [if_pos hd]
      refine ⟨by rw [if_pos hdc], by rw [if_neg hbc, List.append_nil], ?_⟩
      intro c2
      by_cases hc2 : c2 = c <;> simp [hc2, hg]
    · have hdc : ¬((inGrid c && decide (c ∈ alive) && decide (n c ≠ 2) &&
          decide (n c ≠ 3)) = true) := by
        simp only [Bool.and_eq_true, decide_eq_true_eq]
        rintro ⟨⟨⟨-, h1⟩, h2⟩, h3⟩
        exact hd ⟨h1, h2, h3⟩
      rw [if_neg hd]
      by_cases hb : n c = 3
      · have hbc : (inGrid c && !(decide (c ∈ alive) && decide (n c ≠ 2) &&
            decide (n c ≠ 3)) && decide (n c = 3)) = true := by
          simp only [Bool.and_eq_true, decide_eq_true_eq, Bool.not_eq_true',
            Bool.and_eq_false_iff, decide_eq_false_iff_not, not_not]
          exact ⟨⟨hg, by simp [hb]⟩, hb⟩
        rw [if_pos hb]
        refine ⟨by rw [if_neg hdc, List.append_nil], by rw [if_pos hbc], ?_⟩
        intro c2
        by_cases hc2 : c2 = c <;> simp [hc2, hg]
      · have hbc : ¬((inGrid c && !(decide (c ∈ alive) && decide (n c ≠ 2) &&
            decide (n c ≠ 3)) && decide (n c = 3)) = true) := by
          simp [hb]
        rw [if_neg hb]
        refine ⟨by rw [if_neg hdc, List.append_nil],
          by rw [if_neg hbc, List.append_nil], ?_⟩
        intro c2
        by_cases hc2 : c2 = c <;> simp [hc2, hg]
  · rw [if_neg hg]
    have hgf : inGrid c = false := by
      cases h : inGrid c
      · rfl
      · exact absurd h hg
    refine ⟨by simp [hgf], by simp [hgf], ?_⟩
    intro c2
    simp [hg]

/-- The whole second loop of `game_logic` on a duplicate-free candidate
list: `entities_that_died` and `entities_born` are the candidates filtered
by the death and birth conditions, and every in-grid candidate's count is
reset to `0`. -/
lemma foldl_classify_spec (alive : List Coord) (n : Coord → Nat) :
    ∀ (cs : List Coord) (r : GenResult), cs.Nodup →
    (∀ c ∈ cs, r.counts c = n c) →
    ((cs.foldl (classify alive) r).died =
        r.died ++ cs.filter (diedCond alive n)
    ∧ (cs.foldl (classify alive) r).born =
        r.born ++ cs.filter (bornCond alive n)
    ∧ ∀ c2, (cs.foldl (classify alive) r).counts c2 =
        if c2 ∈ cs ∧ inGrid c2 = true then 0 else r.counts c2) := by
  intro cs
  induction cs with
  | nil =>
    intro r _ _
    simp
  | cons c cs ih =>
    intro r hnd hag
    rw [List.nodup_cons] at hnd
    have hcn : r.counts c = n c := hag c (List.mem_cons_self c cs)
    obtain ⟨hde, hbe, hce⟩ := classify_spec alive n r c hcn
    have hag2 : ∀ c2 ∈ cs, (classify alive r c).counts c2 = n c2 := by
      intro c2 hc2
      rw [hce c2, if_neg]
      · exact hag c2 (List.mem_cons_of_mem c hc2)
      · rintro ⟨rfl, -⟩
        exact hnd.1 hc2
    obtain ⟨ihd, ihb, ihc⟩ := ih (classify alive r c) hnd.2 hag2
    rw [List.foldl_cons]
    refine ⟨?_, ?_, ?_⟩
    · rw [ihd, hde, List.filter_cons]
      by_cases h : diedCond alive n c = true <;> simp [h]
    · rw [ihb, hbe, List.filter_cons]
      by_cases h : bornCond alive n c = true <;> simp [h]
    · intro c2
      rw [ihc c2]
      by_cases h1 : c2 ∈ cs ∧ inGrid c2 = true
      · rw [if_pos h1, if_pos ⟨List.mem_cons_of_mem c h1.1, h1.2⟩]
      · rw [if_neg h1, hce c2]
        by_cases h2 : c2 = c ∧ inGrid c = true
        · rw [if_pos h2, if_pos ⟨h2.1 ▸ List.mem_cons_self c cs, h2.1 ▸ h2.2⟩]
        · rw [if_neg h2, if_neg]
          rintro ⟨hm, hgc2⟩
          rcases List.mem_cons.1 hm with rfl | hm2
          · exact h2 ⟨rfl, hgc2⟩
          · exact h1 ⟨hm2, hgc2⟩

/-! ### Characterization of `game_logic` -/

lemma game_logic_spec (alive : List Coord) (counts0 : Coord → Nat) :
    ((game_logic alive counts0).died =
        (neighborPass alive counts0).2.filter
          (diedCond alive (neighborPass alive counts0).1)
    ∧ (game_logic alive counts0).born =
        (neighborPass alive counts0).2.filter
          (bornCond alive (neighborPass alive counts0).1)
    ∧ ∀ c, (game_logic alive counts0).counts c =
        if c ∈ (neighborPass alive counts0).2 ∧ inGrid c = true then 0
        else (neighborPass alive counts0).1 c) := by
  obtain ⟨hd, hb, hc⟩ := foldl_classify_spec alive (neighborPass alive counts0).1
    (neighborPass alive counts0).2 ⟨[], [], (neighborPass alive counts0).1⟩
    (cands_nodup alive counts0) (fun _ _ => rfl)
  exact ⟨by simpa using hd, by simpa using hb, hc⟩

lemma game_logic_died_mem (alive : List Coord) (counts0 : Coord → Nat)
    (c : Coord) :
    c ∈ (game_logic alive counts0).died ↔
      c ∈ (neighborPass alive counts0).2 ∧
        diedCond alive (neighborPass alive counts0).1 c = true := by
  rw [(game_logic_spec alive counts0).1, List.mem_filter]

lemma game_logic_born_mem (alive : List Coord) (counts0 : Coord → Nat)
    (c : Coord) :
    c ∈ (game_logic alive counts0).born ↔
      c ∈ (neighborPass alive counts0).2 ∧
        bornCond alive (neighborPass alive counts0).1 c = true := by
  rw [(game_logic_spec alive counts0).2.1, List.mem_filter]

lemma applyDead_frame (w : World) (c : Coord) :
    (applyDead w c).counts = w.counts ∧
    (applyDead w c).renderDied = w.renderDied ∧
    (applyDead w c).renderBorn = w.renderBorn ∧
    (applyDead w c).logicState = w.logicState :=
  ⟨rfl, rfl, rfl, rfl⟩

lemma foldl_applyDead_frame (l : List Coord) :
    ∀ w : World, ((l.foldl applyDead w).counts = w.counts ∧
    (l.foldl applyDead w).renderDied = w.renderDied ∧
    (l.foldl applyDead w).renderBorn = w.renderBorn ∧
    (l.foldl applyDead w).logicState = w.logicState) := by
  induction l with
  | nil => intro w; exact ⟨rfl, rfl, rfl, rfl⟩
  | cons c l ih =>
    intro w
    rw [List.foldl_cons]
    exact ih (applyDead w c)

lemma foldl_applyBorn_frame (l : List Coord) :
    ∀ w : World, ((l.foldl applyBorn w).counts = w.counts ∧
    (l.foldl applyBorn w).renderDied = w.renderDied ∧
    (l.foldl applyBorn w).renderBorn = w.renderBorn ∧
    (l.foldl applyBorn w).logicState = w.logicState) := by
  induction l with
  | nil => intro w; exact ⟨rfl, rfl, rfl, rfl⟩
  | cons c l ih =>
    intro w
    rw [List.foldl_cons]
    exact ih (applyBorn w c)

lemma foldl_applyDead_alive (l : List Coord) :
    ∀ (w : World) (x : Coord),
    (x ∈ (l.foldl applyDead w).alive ↔ x ∈ w.alive ∧ x ∉ l) := by
  induction l with
  | nil => intro w x; simp
  | cons c l ih =>
    intro w x
    rw [List.foldl_cons, ih]
    show x ∈ (w.alive.filter fun a => decide (a ≠ c)) ∧ x ∉ l ↔ _
    rw [List.mem_filter]
    simp only [decide_eq_true_eq, List.mem_cons]
    tauto

lemma foldl_applyBorn_alive (l : List Coord) :
    ∀ (w : World) (x : Coord),
    (x ∈ (l.foldl applyBorn w).alive ↔ x ∈ w.alive ∨ x ∈ l) := by
  induction l with
  | nil => intro w x; simp
  | cons c l ih =>
    intro w x
    rw [List.foldl_cons, ih]
    show x ∈ (if c ∈ w.alive then w.alive else w.alive ++ [c]) ∨ x ∈ l ↔ _
    by_cases hc : c ∈ w.alive
    · rw [if_pos hc]
      simp only [List.mem_cons]
      constructor
      · rintro (hx | hl)
        · exact Or.inl hx
        · exact Or.inr (Or.inr hl)
      · rintro (hx | rfl | hl)
        · exact Or.inl hx
        · exact Or.inl hc
        · exact Or.inr hl
    · rw [if_neg hc]
      simp only [List.mem_append, List.mem_singleton, List.mem_cons]
      tauto

lemma foldl_applyDead_colors (l : List Coord) :
    ∀ (w : World) (x : Coord),
    (l.foldl applyDead w).colors x =
      if x ∈ l then ColorW.white else w.colors x := by
  induction l with
  | nil => intro w x; simp
  | cons c l ih =>
    intro w x
    rw [List.foldl_cons, ih]
    show (if x ∈ l then ColorW.white
      else if x = c then ColorW.white else w.colors x) = _
    by_cases hl : x ∈ l
    · simp [hl, List.mem_cons, Or.inr hl]
    · by_cases hc : x = c
      · simp [hl, hc]
      · simp [hl, hc, List.mem_cons]

lemma foldl_applyBorn_colors (l : List Coord) :
    ∀ (w : World) (x : Coord),
    (l.foldl applyBorn w).colors x =
      if x ∈ l then ColorW.black else w.colors x := by
  induction l with
  | nil => intro w x; simp
  | cons c l ih =>
    intro w x
    rw [List.foldl_cons, ih]
    show (if x ∈ l then ColorW.black
      else if x = c then ColorW.black else w.colors x) = _
    by_cases hl : x ∈ l
    · simp [hl, List.mem_cons, Or.inr hl]
    · by_cases hc : x = c
      · simp [hl, hc]
      · simp [hl, hc, List.mem_cons]

/-- Propositional form of membership in `entities_that_died`. -/
lemma game_logic_died_mem2 (alive : List Coord) (counts0 : Coord → Nat)
    (c : Coord) :
    c ∈ (game_logic alive counts0).died ↔
      (c ∈ (neighborPass alive counts0).2 ∧ inGrid c = true ∧ c ∈ alive ∧
        (neighborPass alive counts0).1 c ≠ 2 ∧
        (neighborPass alive counts0).1 c ≠ 3) := by
  rw [game_logic_died_mem, diedCond]
  simp only [Bool.and_eq_true, decide_eq_true_eq]
  tauto

/-- Propositional form of membership in `entities_born`. -/
lemma game_logic_born_mem2 (alive : List Coord) (counts0 : Coord → Nat)
    (c : Coord) :
    c ∈ (game_logic alive counts0).born ↔
      (c ∈ (neighborPass alive counts0).2 ∧ inGrid c = true ∧
        ¬(c ∈ alive ∧ (neighborPass alive counts0).1 c ≠ 2 ∧
          (neighborPass alive counts0).1 c ≠ 3) ∧
        (neighborPass alive counts0).1 c = 3) := by
  rw [game_logic_born_mem, bornCond]
  simp only [Bool.and_eq_true, decide_eq_true_eq, Bool.not_eq_true',
    Bool.and_eq_false_iff, decide_eq_false_iff_not, not_not]
  tauto

/-! ### The claims -/

/-- C1: in every call to `game_logic`, an alive cell whose accumulated
neighbor count is exactly 2 or 3 is never pushed onto
`entities_that_died`, and an alive cell with any other count always is.
(The in-grid hypothesis is the program invariant that `Alive` is only ever
attached to entities of `square_map`, all of which have in-grid
coordinates.) -/
theorem alive_cell_death_rule (alive : List Coord) (counts0 : Coord → Nat)
    (c : Coord) (hc : c ∈ alive) (hg : inGrid c = true) :
    (((neighborPass alive counts0).1 c = 2 ∨
        (neighborPass alive counts0).1 c = 3) →
      c ∉ (game_logic alive counts0).died)
    ∧ (((neighborPass alive counts0).1 c ≠ 2 ∧
        (neighborPass alive counts0).1 c ≠ 3) →
      c ∈ (game_logic alive counts0).died) := by
  constructor
  · intro h23 hmem
    rw [game_logic_died_mem2] at hmem
    rcases h23 with h | h
    · exact hmem.2.2.2.1 h
    · exact hmem.2.2.2.2 h
  · intro hne
    rw [game_logic_died_mem2]
    exact ⟨(mem_cands alive counts0 c).2 (Or.inl hc), hg, hc, hne.1, hne.2⟩

/-- C1 witness: an isolated alive cell has count 0 and is reported dead. -/
theorem alive_cell_death_rule_witness :
    ((5, 5) : Coord) ∈ (game_logic [((5, 5) : Coord)] (fun _ => 0)).died :=
  (alive_cell_death_rule [((5, 5) : Coord)] (fun _ => 0) (5, 5)
    (by decide) (by decide)).2 (by constructor <;> decide)

/-- C2: in every call to `game_logic`, a candidate cell (dead or alive)
whose accumulated neighbor count is exactly 3 and that was not marked died
is pushed onto `entities_born`; a dead cell with any other count lands in
neither list, and an alive cell with count exactly 2 lands in neither
list. -/
theorem birth_rule (alive : List Coord) (counts0 : Coord → Nat) (c : Coord)
    (hg : inGrid c = true) :
    ((c ∈ (neighborPass alive counts0).2 ∧
        (neighborPass alive counts0).1 c = 3 ∧
        c ∉ (game_logic alive counts0).died) →
      c ∈ (game_logic alive counts0).born)
    ∧ ((c ∉ alive ∧ (neighborPass alive counts0).1 c ≠ 3) →
      (c ∉ (game_logic alive counts0).died ∧
        c ∉ (game_logic alive counts0).born))
    ∧ ((c ∈ alive ∧ (neighborPass alive counts0).1 c = 2) →
      (c ∉ (game_logic alive counts0).died ∧
        c ∉ (game_logic alive counts0).born)) := by
  refine ⟨?_, ?_, ?_⟩
  · rintro ⟨hcand, h3, -⟩
    rw [game_logic_born_mem2]
    refine ⟨hcand, hg, ?_, h3⟩
    rintro ⟨-, -, hne3⟩
    exact hne3 h3
  · rintro ⟨hdead, hne3⟩
    constructor
    · intro hmem
      rw [game_logic_died_mem2] at hmem
      exact hdead hmem.2.2.1
    · intro hmem
      rw [game_logic_born_mem2] at hmem
      exact hne3 hmem.2.2.2
  · rintro ⟨halive, h2⟩
    constructor
    · intro hmem
      rw [game_logic_died_mem2] at hmem
      exact hmem.2.2.2.1 h2
    · intro hmem
      rw [game_logic_born_mem2] at hmem
      rw [h2] at hmem
      exact absurd hmem.2.2.2 (by decide)

/-- C2 witness: in the blinker, the dead cell above the center has three
alive neighbors and is born. -/
theorem birth_rule_witness :
    ((4, 5) : Coord) ∈ (game_logic blinker (fun _ => 0)).born :=
  (birth_rule blinker (fun _ => 0) (4, 5) (by decide)).1
    ⟨by decide, by decide, by decide⟩

/-- C4: if every accumulator is zero before the call, every cell's
`number_of_neighbors` in the whole grid is zero again after `game_logic`
returns: in-grid candidates are explicitly reset, and cells outside the
candidate set are never incremented. -/
theorem counts_zero_after_game_logic (alive : List Coord)
    (counts0 : Coord → Nat) (h0 : ∀ c, counts0 c = 0) (c : Coord) :
    (game_logic alive counts0).counts c = 0 := by
  rw [(game_logic_spec alive counts0).2.2 c]
  by_cases hm : c ∈ (neighborPass alive counts0).2 ∧ inGrid c = true
  · rw [if_pos hm]
  · rw [if_neg hm, neighborPass_counts, h0 c, Nat.zero_add]
    apply List.countP_eq_zero.2
    intro a ha hp
    rw [Bool.and_eq_true] at hp
    exact hm ⟨(mem_cands alive counts0 c).2 (Or.inr ⟨a, ha, hp.1, hp.2⟩), hp.2⟩

/-- C4 witness: with an alive corner cell and zeroed accumulators, a
neighboring cell's accumulator is zero again after the call. -/
theorem counts_zero_after_game_logic_witness :
    (game_logic [((0, 0) : Coord)] (fun _ => 0)).counts (1, 1) = 0 :=
  counts_zero_after_game_logic [((0, 0) : Coord)] (fun _ => 0)
    (fun _ => rfl) (1, 1)

/-- C5: out-of-bounds neighbor offsets are dropped by the bounds check
before any indexing: a cell outside
`[0, NUM_OF_COLS) × [0, NUM_OF_ROWS)` (in particular at any negative
coordinate) is never incremented by the counting pass, and any cell whose
accumulator changes is an in-grid cell reachable from a live cell by plain
integer offset arithmetic — no coordinate is ever wrapped to the opposite
edge. -/
theorem oob_offsets_dropped (alive : List Coord) (counts0 : Coord → Nat)
    (c : Coord) :
    (inGrid c = false → (neighborPass alive counts0).1 c = counts0 c)
    ∧ ((neighborPass alive counts0).1 c ≠ counts0 c →
        (inGrid c = true ∧ ∃ a ∈ alive, adjacent a c = true)) := by
  constructor
  · intro hg
    rw [neighborPass_counts]
    have hz : alive.countP (fun a => adjacent a c && inGrid c) = 0 := by
      apply List.countP_eq_zero.2
      intro a _
      simp [hg]
    rw [hz, Nat.add_zero]
  · intro hne
    rw [neighborPass_counts] at hne
    have hcp : ¬(alive.countP (fun a => adjacent a c && inGrid c) = 0) := by
      omega
    rw [List.countP_eq_zero] at hcp
    push_neg at hcp
    obtain ⟨a, ha, hp⟩ := hcp
    rw [Bool.and_eq_true] at hp
    exact ⟨hp.2, a, ha, hp.1⟩

/-- C10: the two output lists of `game_logic` are disjoint and
duplicate-free: the candidate set holds each coordinate once, and the
`if`/`else if` branches are mutually exclusive.  (Distinct coordinates
carry distinct entities, so duplicate-freedom of coordinates is
duplicate-freedom of the `Vec<Entity>` outputs.) -/
theorem died_born_nodup_disjoint (alive : List Coord)
    (counts0 : Coord → Nat) :
    (game_logic alive counts0).died.Nodup
    ∧ (game_logic alive counts0).born.Nodup
    ∧ ∀ c, c ∈ (game_logic alive counts0).died →
        c ∉ (game_logic alive counts0).born := by
  obtain ⟨hd, hb, -⟩ := game_logic_spec alive counts0
  refine ⟨hd ▸ (cands_nodup alive counts0).filter _,
    hb ▸ (cands_nodup alive counts0).filter _, ?_⟩
  intro c hcd hcb
  rw [game_logic_died_mem2] at hcd
  rw [game_logic_born_mem2] at hcb
  exact hcb.2.2.1 ⟨hcd.2.2.1, hcd.2.2.2⟩

/-- C3 counterexample: `handle_rendering` does not clear the `RenderInput`
lists — after running it on a world whose `entities_that_died` holds one
entity, the list still holds that entity (the lists are only cleared later,
at the start of the next `game_logic` call). -/
theorem handle_rendering_does_not_clear :
    (handle_rendering demoWorld).renderDied = [((0, 0) : Coord)] ∧
    ¬((handle_rendering demoWorld).renderDied = [] ∧
      (handle_rendering demoWorld).renderBorn = []) := by
  constructor
  · rfl
  · intro h
    exact absurd h.1 (by decide)

/-- C3 (amended): `handle_rendering` sets the visual and alive state from
exactly the entities of `died` and `born` (painting `died` white and
removing `Alive`, then painting `born` black and inserting `Alive`, so
`born` wins on overlap), leaves both lists untouched, and transitions the
lifecycle state back to `CalculationNeeded`; the lists are cleared at the
start of the next `game_logic` call instead, whose output lists do not
depend on their previous contents. -/
theorem handle_rendering_applies_exactly (w : World) :
    ((∀ c, c ∈ (handle_rendering w).alive ↔
      (c ∈ w.renderBorn ∨ (c ∈ w.alive ∧ c ∉ w.renderDied)))
    ∧ (∀ c, (handle_rendering w).colors c =
        if c ∈ w.renderBorn then ColorW.black
        else if c ∈ w.renderDied then ColorW.white else w.colors c)
    ∧ (handle_rendering w).renderDied = w.renderDied
    ∧ (handle_rendering w).renderBorn = w.renderBorn
    ∧ (handle_rendering w).logicState = LogicState.CalculationNeeded
    ∧ (∀ d b : List Coord,
        ((game_logic_sys
            { w with renderDied := d, renderBorn := b }).renderDied =
          (game_logic_sys w).renderDied ∧
        (game_logic_sys
            { w with renderDied := d, renderBorn := b }).renderBorn =
          (game_logic_sys w).renderBorn))) := by
  obtain ⟨hdc, hdd, hdb, -⟩ :=
    foldl_applyDead_frame w.renderDied w
  refine ⟨?_, ?_, ?_, ?_, rfl, fun d b => ⟨rfl, rfl⟩⟩
  · intro c
    show c ∈ (w.renderBorn.foldl applyBorn
      (w.renderDied.foldl applyDead w)).alive ↔ _
    rw [foldl_applyBorn_alive, foldl_applyDead_alive]
    tauto
  · intro c
    show (w.renderBorn.foldl applyBorn
      (w.renderDied.foldl applyDead w)).colors c = _
    rw [foldl_applyBorn_colors, foldl_applyDead_colors]
  · show (w.renderBorn.foldl applyBorn
      (w.renderDied.foldl applyDead w)).renderDied = _
    rw [(foldl_applyBorn_frame w.renderBorn _).2.1, hdd]
  · show (w.renderBorn.foldl applyBorn
      (w.renderDied.foldl applyDead w)).renderBorn = _
    rw [(foldl_applyBorn_frame w.renderBorn _).2.2.1, hdb]

/-- C6: the blinker oscillates.  One generation kills the two end cells of
the horizontal line and bears the two cells completing the vertical line;
applying the result leaves the vertical line alive; the second generation
reverses the lists, and applying it restores the original horizontal line
as a set. -/
theorem blinker_oscillates :
    ((game_logic_sys blinkerW).renderDied = [(5, 4), (5, 6)]
    ∧ (game_logic_sys blinkerW).renderBorn = [(4, 5), (6, 5)]
    ∧ (handle_rendering (game_logic_sys blinkerW)).alive.Perm
        [(4, 5), (5, 5), (6, 5)]
    ∧ (game_logic_sys (handle_rendering
        (game_logic_sys blinkerW))).renderDied = [(4, 5), (6, 5)]
    ∧ (game_logic_sys (handle_rendering
        (game_logic_sys blinkerW))).renderBorn = [(5, 4), (5, 6)]
    ∧ (handle_rendering (game_logic_sys (handle_rendering
        (game_logic_sys blinkerW)))).alive.Perm blinker) := by
  refine ⟨by decide, by decide, by decide, by decide, by decide, by decide⟩

/-- C7: one pass of `game_loop` dispatches the generation computation
exactly from `CalculationNeeded` (moving the state to
`CalculatingCurrently`), dispatches nothing from `CalculatingCurrently`,
requests the render step only from `Calculated` when the tick timer just
finished, and never dispatches more than one system in a pass — so at most
one generation computation and at most one render/apply invocation are in
flight at any time. -/
theorem scheduler_at_most_one_dispatch (s : LogicState) (t : Bool) :
    ((SysAction.runGameLogic ∈ (game_loop s t).2 ↔
        s = LogicState.CalculationNeeded)
    ∧ (s = LogicState.CalculationNeeded →
        (game_loop s t).1 = LogicState.CalculatingCurrently)
    ∧ (s = LogicState.CalculatingCurrently → (game_loop s t).2 = [])
    ∧ (SysAction.runRender ∈ (game_loop s t).2 →
        (s = LogicState.Calculated ∧ t = true))
    ∧ (game_loop s t).2.length ≤ 1) := by
  cases s <;> cases t <;> decide

/-- C8: `game_logic` is deterministic as a function of the live-cell set:
runs over any two enumerations of the same alive cells (the query yields
each entity once, so two enumerations are permutations) produce the same
`died` and the same `born` lists as sets, independent of candidate
iteration order. -/
theorem game_logic_deterministic (a1 a2 : List Coord) (h : a1.Perm a2)
    (counts0 : Coord → Nat) (c : Coord) :
    ((c ∈ (game_logic a1 counts0).died ↔ c ∈ (game_logic a2 counts0).died)
    ∧ (c ∈ (game_logic a1 counts0).born ↔
        c ∈ (game_logic a2 counts0).born)) := by
  have hn : (neighborPass a1 counts0).1 c = (neighborPass a2 counts0).1 c := by
    rw [neighborPass_counts, neighborPass_counts, h.countP_eq]
  have hcand : c ∈ (neighborPass a1 counts0).2 ↔
      c ∈ (neighborPass a2 counts0).2 := by
    rw [mem_cands, mem_cands, h.mem_iff]
    constructor
    · rintro (h1 | ⟨a, ha, h2⟩)
      · exact Or.inl h1
      · exact Or.inr ⟨a, h.subset ha, h2⟩
    · rintro (h1 | ⟨a, ha, h2⟩)
      · exact Or.inl h1
      · exact Or.inr ⟨a, h.symm.subset ha, h2⟩
  constructor
  · rw [game_logic_died_mem2, game_logic_died_mem2, hn, hcand, h.mem_iff]
  · rw [game_logic_born_mem2, game_logic_born_mem2, hn, hcand, h.mem_iff]

/-- C8 witness: swapping the order of two alive cells changes neither
list's membership. -/
theorem game_logic_deterministic_witness :
    (((5, 5) : Coord) ∈
        (game_logic [((5, 4) : Coord), (5, 5)] (fun _ => 0)).died ↔
      ((5, 5) : Coord) ∈
        (game_logic [((5, 5) : Coord), (5, 4)] (fun _ => 0)).died) :=
  (game_logic_deterministic [((5, 4) : Coord), (5, 5)]
    [((5, 5) : Coord), (5, 4)] (List.Perm.swap (5, 5) (5, 4) [])
    (fun _ => 0) (5, 5)).1

/-- C9: the `game_logic` system never changes any entity's `Alive`
component or sprite color: its only writes are the `RenderInput` lists, the
neighbor-count store and the lifecycle state, so every render observes
exactly the pre-computation alive set until `handle_rendering` applies the
lists. -/
theorem game_logic_frame (w : World) :
    ((game_logic_sys w).alive = w.alive
    ∧ (∀ c, (game_logic_sys w).colors c = w.colors c)) :=
  ⟨rfl, fun _ => rfl⟩

end GoL
